import Mathlib

/-!
Verification development for the civitai-user-downloader core (src/index.js).

The file shallowly embeds the three components the claims talk about:

* `TagFilter` — the boolean tag-filter compiler (`compile`, `test`,
  `parseExclusions`, `parseInclusions`, `mapOperator`).  The JS code builds a
  JavaScript boolean expression string and evaluates it with `new Function`;
  here the generated expression is represented by its token list (`ETok`) and
  its evaluation by a recursive-descent parser (`pOr`/`pAnd`/`pNot`/`pPrim`)
  that implements the JavaScript operator precedence (unary `!` over `&&`
  over `||`, parentheses explicit).  The term regexes `\b\d*TERMs?\b` (include)
  and `\b\d*TERM\b` (exclude), both with the `i` flag, are modelled by the
  executable matcher `regexTest` (`escapeRegex` in the source makes the term
  literal, so literal matching is exact).

* `MetadataCache` — the id-keyed `Map` is modelled as an association list
  with JS `Map.set` semantics (`mapSet`: overwrite in place, append if new).

* `CivitDownloader` — the scan orchestrator (`processBatch`,
  `runOnlineStrategy`, `fetchPage`, `run`/`finalize`).  The observable calls
  (fetch, upsert, process, save, submit, classified error report, summary)
  are recorded in an event trace `Ev` carried in the state `St`.  Network
  page results are an environment parameter (`FetchR`), downloads are modelled
  up to submission (the counters are mutated synchronously at submission in
  the source; the streaming itself involves no further counter or cache
  mutation).
-/

namespace CivitDL

/-! ### Word-boundary regex model -/

/-- JS `\w` word characters: ASCII letters, digits and underscore. -/
def isWordChar (c : Char) : Bool := c.isAlpha || c.isDigit || c == '_'

/-- Wordness of an optional character; out-of-bounds counts as non-word. -/
def owc : Option Char → Bool
  | none => false
  | some c => isWordChar c

/-- The zero-width `\b` assertion between the previous and next character. -/
def bnd (a b : Option Char) : Bool := owc a != owc b

/-- Case-insensitive literal match of a pattern against the front of `s`;
    returns the last consumed character and the remaining input. -/
def litRun : Option Char → List Char → List Char → Option (Option Char × List Char)
  | prev, [], s => some (prev, s)
  | _, _ :: _, [] => none
  | _, p :: ps, c :: cs =>
    if c.toLower = p.toLower then litRun (some c) ps cs else none

/-- After the literal term: either `\b` directly, or (include patterns only)
    an optional plural `s` followed by `\b`. -/
def tailOk (plural : Bool) (last : Option Char) (s : List Char) : Bool :=
  bnd last s.head? ||
  (plural &&
    match s with
    | c :: cs => c.toLower == 's' && bnd (some c) cs.head?
    | [] => false)

/-- Matches `\d*` then the literal term then the tail at this position;
    `prev` is the character just before the position. -/
def matchBody (term : List Char) (plural : Bool) : Option Char → List Char → Bool
  | prev, [] =>
    (match litRun prev term [] with
     | some (last, rest) => tailOk plural last rest
     | none => false)
  | prev, c :: cs =>
    (match litRun prev term (c :: cs) with
     | some (last, rest) => tailOk plural last rest
     | none => false) ||
    (c.isDigit && matchBody term plural (some c) cs)

/-- A whole-pattern match starting exactly here: `\b` then the body. -/
def matchAt (term : List Char) (plural : Bool) (prev : Option Char) (s : List Char) : Bool :=
  bnd prev s.head? && matchBody term plural prev s

/-- Scan every start position of the prompt. -/
def scanFrom (term : List Char) (plural : Bool) : Option Char → List Char → Bool
  | prev, [] => matchAt term plural prev []
  | prev, c :: cs => matchAt term plural prev (c :: cs) || scanFrom term plural (some c) cs

/-- `RegExp.test` for `\b\d*TERM\b` (exclude) or `\b\d*TERMs?\b` (include),
    case-insensitive. -/
def regexTest (term : List Char) (plural : Bool) (prompt : List Char) : Bool :=
  scanFrom term plural none prompt

/-! ### TagFilter: exclusion list and include-query tokenizer -/

/-- JS `\s` and `trim` whitespace (the ASCII part, which is all the source uses). -/
def isWs (c : Char) : Bool :=
  c == ' ' || c == '\t' || c == '\n' || c == '\r' || c == '\x0b' || c == '\x0c'

/-- JS `String.prototype.trim`. -/
def trimL (l : List Char) : List Char :=
  ((l.dropWhile isWs).reverse.dropWhile isWs).reverse

/-- The replace of `^['"]|['"]$` (global): strip at most one leading and one
    trailing quote character. -/
def stripQ (l : List Char) : List Char :=
  let l1 := match l with
    | c :: r => if c == '\'' || c == '"' then r else l
    | [] => l
  match l1.reverse with
  | c :: r => if c == '\'' || c == '"' then r.reverse else l1
  | [] => l1

/-- JS `String.prototype.split` on a single comma. -/
def splitCommas : List Char → List (List Char)
  | [] => [[]]
  | c :: r =>
    if c == ',' then [] :: splitCommas r
    else
      match splitCommas r with
      | h :: t => (c :: h) :: t
      | [] => [[c]]

/-- `TagFilter.parseExclusions`: split on commas, trim, strip quotes, drop
    empty terms.  Each surviving term text is later tested with the
    non-plural pattern (`regexTest · false`). -/
def parseExclusionsF (s : String) : List (List Char) :=
  if s = "" then []
  else ((splitCommas s.data).map (fun t => stripQ (trimL t))).filter (fun t => !t.isEmpty)

/-- Case-insensitive match of a keyword at the front of `s`; returns the
    actually matched characters (the capture) and the rest. -/
def startsCI : List Char → List Char → Option (List Char × List Char)
  | [], s => some ([], s)
  | _ :: _, [] => none
  | k :: ks, c :: cs =>
    if c.toLower = k.toLower then
      match startsCI ks cs with
      | some (m, r) => some (c :: m, r)
      | none => none
    else none

/-- The alternation `(AND|OR|NOT)` of the split regex. -/
def tryKw (s : List Char) : Option (List Char × List Char) :=
  match startsCI ['A', 'N', 'D'] s with
  | some x => some x
  | none =>
    match startsCI ['O', 'R'] s with
    | some x => some x
    | none => startsCI ['N', 'O', 'T'] s

/-- Leftmost-match step of the split regex
    `\s+(AND|OR|NOT)\s+|\s*(\(|\))\s*` (case-insensitive) at this position:
    returns the captured token and the input after the whole match. -/
def splitHere (s : List Char) : Option (List Char × List Char) :=
  let w := s.takeWhile isWs
  let r := s.drop w.length
  let alt2 : Option (List Char × List Char) :=
    match r with
    | c :: cs =>
      if c == '(' || c == ')' then some ([c], cs.drop (cs.takeWhile isWs).length)
      else none
    | [] => none
  if w.length ≠ 0 then
    match tryKw r with
    | some (kw, r2) =>
      let w2 := r2.takeWhile isWs
      if w2.length ≠ 0 then some (kw, r2.drop w2.length) else alt2
    | none => alt2
  else alt2

/-- Scanner implementing `query.split(regex)`: pieces and captured operator
    tokens in input order.  Each step consumes at least one character, so
    fuel `s.length` makes the result exact. -/
def scanQ : Nat → List Char → List Char → List (List Char)
  | _, acc, [] => [acc.reverse]
  | 0, acc, s => [acc.reverse ++ s]
  | Nat.succ f, acc, c :: cs =>
    match splitHere (c :: cs) with
    | some (tok, rest) => acc.reverse :: tok :: scanQ f [] rest
    | none => scanQ f (c :: acc) cs

def tokenizeRaw (q : List Char) : List (List Char) :=
  scanQ q.length [] q

/-! ### The generated boolean expression and its JS evaluation -/

/-- Tokens of the generated JavaScript expression: a term test
    `Terms[i].test(prompt)`, the literal `true`, ` && `, ` || `, ` !`, and
    verbatim parentheses (`TagFilter.mapOperator`). -/
inductive ETok where
  | term (i : Nat)
  | tt
  | and
  | or
  | not
  | lp
  | rp
  deriving DecidableEq, Repr

/-- Expression tree of a parsed JavaScript boolean expression. -/
inductive BExp where
  | tt
  | term (i : Nat)
  | neg (e : BExp)
  | conj (a b : BExp)
  | disj (a b : BExp)
  deriving DecidableEq, Repr

mutual

/-- `||` level (lowest precedence). -/
def pOr : Nat → List ETok → Option (BExp × List ETok)
  | 0, _ => none
  | Nat.succ f, ts =>
    match pAnd f ts with
    | some (a, rest) => pOrTail f a rest
    | none => none

def pOrTail : Nat → BExp → List ETok → Option (BExp × List ETok)
  | 0, _, _ => none
  | Nat.succ f, a, ETok.or :: r =>
    match pAnd f r with
    | some (b, rest) => pOrTail f (BExp.disj a b) rest
    | none => none
  | Nat.succ _, a, ts => some (a, ts)

/-- `&&` level. -/
def pAnd : Nat → List ETok → Option (BExp × List ETok)
  | 0, _ => none
  | Nat.succ f, ts =>
    match pNot f ts with
    | some (a, rest) => pAndTail f a rest
    | none => none

def pAndTail : Nat → BExp → List ETok → Option (BExp × List ETok)
  | 0, _, _ => none
  | Nat.succ f, a, ETok.and :: r =>
    match pNot f r with
    | some (b, rest) => pAndTail f (BExp.conj a b) rest
    | none => none
  | Nat.succ _, a, ts => some (a, ts)

/-- Unary `!` level (binds tightest). -/
def pNot : Nat → List ETok → Option (BExp × List ETok)
  | 0, _ => none
  | Nat.succ f, ETok.not :: r =>
    match pNot f r with
    | some (b, rest) => some (BExp.neg b, rest)
    | none => none
  | Nat.succ f, ts => pPrim f ts

/-- Primary: term test, literal `true`, or a parenthesized expression. -/
def pPrim : Nat → List ETok → Option (BExp × List ETok)
  | 0, _ => none
  | Nat.succ _, ETok.term i :: r => some (BExp.term i, r)
  | Nat.succ _, ETok.tt :: r => some (BExp.tt, r)
  | Nat.succ f, ETok.lp :: r =>
    (match pOr f r with
     | some (b, ETok.rp :: r2) => some (b, r2)
     | _ => none)
  | Nat.succ _, _ => none

end

/-- Parse a whole generated expression; `none` models the `SyntaxError` that
    `new Function` raises on a malformed expression body. -/
def parseE (ts : List ETok) : Option BExp :=
  match pOr (5 * ts.length + 5) ts with
  | some (b, []) => some b
  | _ => none

/-- Evaluation of the parsed expression; `v i` is `Terms[i].test(prompt)`. -/
def evalB (v : Nat → Bool) : BExp → Bool
  | BExp.tt => true
  | BExp.term i => v i
  | BExp.neg e => !evalB v e
  | BExp.conj a b => evalB v a && evalB v b
  | BExp.disj a b => evalB v a || evalB v b

def evalE (v : Nat → Bool) (ts : List ETok) : Option Bool :=
  (parseE ts).map (evalB v)

/-- `TagFilter.parseInclusions`: blank query means the vacuous expression
    `true`; otherwise tokenize and fold each token either into an operator
    (after uppercase-and-trim, via `mapOperator`) or into a fresh term whose
    quote-stripped text is pushed onto the term list. -/
def parseInclusionsF (q : String) : List (List Char) × List ETok :=
  if trimL q.data = [] then ([], [ETok.tt])
  else
    let toks := (tokenizeRaw q.data).filter (fun t => !(trimL t).isEmpty && !t.isEmpty)
    toks.foldl
      (fun acc tok =>
        let upper := trimL (tok.map Char.toUpper)
        if upper = ['A', 'N', 'D'] then (acc.1, acc.2 ++ [ETok.and])
        else if upper = ['O', 'R'] then (acc.1, acc.2 ++ [ETok.or])
        else if upper = ['N', 'O', 'T'] then (acc.1, acc.2 ++ [ETok.not])
        else if upper = ['('] then (acc.1, acc.2 ++ [ETok.lp])
        else if upper = [')'] then (acc.1, acc.2 ++ [ETok.rp])
        else (acc.1 ++ [stripQ tok], acc.2 ++ [ETok.term acc.1.length]))
      ([], [])

/-- A compiled `TagFilter` predicate: exclusion term texts, include term
    texts, and the generated expression tokens. -/
structure Filter where
  exclusions : List (List Char)
  terms : List (List Char)
  etoks : List ETok
  deriving DecidableEq, Repr

/-- `TagFilter.test`: a null/absent prompt becomes the empty string; with no
    exclusions and no terms the predicate is the constant `true`; otherwise
    the exclusion patterns veto first, then the include expression decides. -/
def Filter.test (f : Filter) (prompt : Option String) : Bool :=
  if f.exclusions = [] ∧ f.terms = [] then true
  else if f.exclusions.any (fun t => regexTest t false (prompt.getD "").data) then false
  else (evalE (fun i => regexTest (f.terms.getD i []) true (prompt.getD "").data) f.etoks).getD false

/-- `TagFilter.compile`; `none` models the fatal exit on a malformed
    expression (the `new Function` construction failing). -/
def compileF (q ex : String) : Option Filter :=
  let excl := parseExclusionsF ex
  let pr := parseInclusionsF q
  if excl = [] ∧ pr.1 = [] then some ⟨excl, pr.1, pr.2⟩
  else
    match parseE pr.2 with
    | some _ => some ⟨excl, pr.1, pr.2⟩
    | none => none

/-- Compile-then-test, the composition exercised by the spec's examples. -/
def testC (q ex : String) (p : Option String) : Option Bool :=
  (compileF q ex).map (fun f => f.test p)

/-! ### MetadataCache -/

/-- One remote image record: id, optional free-text prompt, source url, and
    opaque passthrough data preserved verbatim for caching. -/
structure Item where
  id : Nat
  prompt : Option String
  url : String
  extra : String
  deriving DecidableEq, Repr

/-- JS `Map.set`: overwrite the existing entry in place, else append. -/
def mapSet : List (Nat × Item) → Nat → Item → List (Nat × Item)
  | [], k, v => [(k, v)]
  | p :: r, k, v => if p.1 = k then (k, v) :: r else p :: mapSet r k v

/-- `MetadataCache.upsertBatch`. -/
def upsertB (m : List (Nat × Item)) (items : List Item) : List (Nat × Item) :=
  items.foldl (fun acc it => mapSet acc it.id it) m

/-- `Map.get` by id. -/
def lookupM : List (Nat × Item) → Nat → Option Item
  | [], _ => none
  | p :: r, k => if p.1 = k then some p.2 else lookupM r k

def keysM (m : List (Nat × Item)) : List Nat :=
  m.map (fun p => p.1)

/-- `MetadataCache.getAll`: the values in insertion order. -/
def getAllM (m : List (Nat × Item)) : List Item :=
  m.map (fun p => p.2)

/-- `MetadataCache.save`: the backing file holds the serialized value array. -/
def saveM (m : List (Nat × Item)) : List Item :=
  getAllM m

/-- `MetadataCache.loadMetadata` from a backing file: rebuild the Map from
    the array, keyed by each record's id. -/
def loadM (l : List Item) : List (Nat × Item) :=
  upsertB [] l

/-- Every entry is keyed by its record's id (holds for every map the code
    ever builds, since insertion is always by `item.id`). -/
def Keyed (m : List (Nat × Item)) : Prop :=
  ∀ p ∈ m, p.2.id = p.1

/-- The last record of the list carrying the given id. -/
def lastWith (k : Nat) : List Item → Option Item
  | [] => none
  | it :: rest =>
    match lastWith k rest with
    | some v => some v
    | none => if it.id = k then some it else none

/-! ### CivitDownloader orchestrator -/

/-- Error classification of a failed page fetch (`fetchPage`'s catch). -/
inductive ErrKind where
  | notFound
  | auth
  | generic
  deriving DecidableEq, Repr

/-- Result of one page fetch: a page with a next-cursor flag, or a failure. -/
inductive FetchR where
  | ok (items : List Item) (next : Bool)
  | fail (k : ErrKind)
  deriving DecidableEq, Repr

/-- Observable orchestrator events, in call order. -/
inductive Ev where
  | fetchEv
  | upsertEv (items : List Item)
  | processEv (items : List Item)
  | saveEv
  | submitEv (id : Nat)
  | errorEv (k : ErrKind)
  | noImagesEv
  | summaryEv
  deriving DecidableEq, Repr

structure Cfg where
  limit : Nat
  filter : Filter
  deriving Repr

/-- Orchestrator state: the run counters, the metadata map, the file index
    (fixed after startup), and the event trace. -/
structure St where
  scanned : Nat
  matchCount : Nat
  downloaded : Nat
  skipped : Nat
  cache : List (Nat × Item)
  files : List Nat
  events : List Ev
  deriving Repr

/-- `CivitDownloader.processBatch`: per item, stop at the limit, count the
    scan, filter on the prompt, then either skip (file already present) or
    count a download and submit the job. -/
def processBatch (cfg : Cfg) : St → List Item → St
  | st, [] => st
  | st, item :: rest =>
    if cfg.limit ≤ st.matchCount then st
    else
      let st1 : St := { st with scanned := st.scanned + 1 }
      if cfg.filter.test item.prompt then
        let st2 : St := { st1 with matchCount := st1.matchCount + 1 }
        if st2.files.contains item.id then
          processBatch cfg { st2 with skipped := st2.skipped + 1 } rest
        else
          processBatch cfg
            { st2 with
              downloaded := st2.downloaded + 1
              events := st2.events ++ [Ev.submitEv item.id] } rest
      else processBatch cfg st1 rest

/-- The loop body for one successfully fetched page, in the order the code
    performs it: `cache.upsertBatch(items)`, then `processBatch(items)`,
    then `cache.save()`. -/
def pageStep (cfg : Cfg) (st : St) (items : List Item) : St :=
  let st1 : St :=
    { st with
      cache := upsertB st.cache items
      events := st.events ++ [Ev.upsertEv items] }
  let st2 : St := processBatch cfg { st1 with events := st1.events ++ [Ev.processEv items] } items
  { st2 with events := st2.events ++ [Ev.saveEv] }

/-- `CivitDownloader.runOnlineStrategy`: the fetch loop.  The environment
    list gives the successive fetch results; a failed fetch reports a
    classified error and saves the cache inside `fetchPage`, then the loop
    breaks.  An empty very first page reports "no images" and returns.
    Otherwise run the page step and continue only when the limit is not
    reached and a next cursor exists. -/
def runOnline (cfg : Cfg) : St → List FetchR → St
  | st, [] => st
  | st, f :: rest =>
    if cfg.limit ≤ st.matchCount then st
    else
      let st0 : St := { st with events := st.events ++ [Ev.fetchEv] }
      match f with
      | FetchR.fail k => { st0 with events := st0.events ++ [Ev.errorEv k, Ev.saveEv] }
      | FetchR.ok items next =>
        if st.scanned = 0 ∧ items = [] then
          { st0 with events := st0.events ++ [Ev.noImagesEv] }
        else
          let st3 : St := pageStep cfg st0 items
          if cfg.limit ≤ st3.matchCount ∨ next = false then st3
          else runOnline cfg st3 rest

/-- `CivitDownloader.finalize`: drain the queue, save once more, print the
    summary. -/
def finalizeRun (st : St) : St :=
  { st with events := st.events ++ [Ev.saveEv, Ev.summaryEv] }

def initSt (cache : List (Nat × Item)) (files : List Nat) : St :=
  ⟨0, 0, 0, 0, cache, files, []⟩

/-- `CivitDownloader.run` for the online path: scan, then finalize.  Note
    that a failed page fetch does not throw (its error is handled inside
    `fetchPage`), so the run always reaches `finalize`. -/
def runM (cfg : Cfg) (cache : List (Nat × Item)) (files : List Nat) (fs : List FetchR) : St :=
  finalizeRun (runOnline cfg (initSt cache files) fs)

/-- The per-page step order exactly as the spec words it: upsert the page,
    persist the store, then process the records.  Modelled from the spec for
    comparison with the order the code produces. -/
def specPageOrder (items : List Item) : List Ev :=
  [Ev.fetchEv, Ev.upsertEv items, Ev.saveEv, Ev.processEv items]

/-! ### Concrete fixtures used by witnesses and counterexamples -/

def itemCatD : Item := ⟨1, some "a cat at day", "http://img/1", "pass"⟩

def itemDogD : Item := ⟨7, some "a dog", "http://img/7", "pass"⟩

/-- The filter compiled from include query "cat" with no exclusions. -/
def fCat : Filter := ⟨[], ["cat".data], [ETok.term 0]⟩

def cfgFive : Cfg := ⟨5, fCat⟩

def cfgZero : Cfg := ⟨0, fCat⟩

def stEmpty : St := initSt [] []

end CivitDL
namespace CivitDL

/-! ### MetadataCache lemmas -/

theorem lookupM_mapSet (m : List (Nat × Item)) (a k : Nat) (v : Item) :
    lookupM (mapSet m a v) k = if a = k then some v else lookupM m k := by
  induction m with
  | nil => simp only [mapSet, lookupM]
  | cons p r ih =>
    by_cases hp : p.1 = a
    · have hm : mapSet (p :: r) a v = (a, v) :: r := by simp [mapSet, hp]
      rw [hm]
      by_cases hak : a = k
      · simp [lookupM, hak]
      · have hpk : ¬ p.1 = k := fun h => hak (hp.symm.trans h)
        simp [lookupM, hak, hpk]
    · have hm : mapSet (p :: r) a v = p :: mapSet r a v := by simp [mapSet, hp]
      rw [hm]
      by_cases hpk : p.1 = k
      · have hak : ¬ a = k := fun h => hp (hpk.trans h.symm)
        simp [lookupM, hpk, hak]
      · simp [lookupM, hpk, ih]

theorem mem_keysM_mapSet (m : List (Nat × Item)) (a k : Nat) (v : Item) :
    k ∈ keysM (mapSet m a v) ↔ k ∈ keysM m ∨ k = a := by
  induction m with
  | nil => simp [mapSet, keysM]
  | cons p r ih =>
    by_cases hp : p.1 = a
    · subst hp
      simp [mapSet, keysM]
      tauto
    · have hm : mapSet (p :: r) a v = p :: mapSet r a v := by simp [mapSet, hp]
      rw [hm]
      simp only [keysM, List.map_cons, List.mem_cons] at ih ⊢
      rw [ih]
      tauto

theorem nodup_keysM_mapSet (m : List (Nat × Item)) (a : Nat) (v : Item)
    (h : (keysM m).Nodup) : (keysM (mapSet m a v)).Nodup := by
  induction m with
  | nil => simp [mapSet, keysM]
  | cons p r ih =>
    rw [show keysM (p :: r) = p.1 :: keysM r from rfl, List.nodup_cons] at h
    by_cases hp : p.1 = a
    · have hm : mapSet (p :: r) a v = (a, v) :: r := by simp [mapSet, hp]
      rw [hm, show keysM ((a, v) :: r) = a :: keysM r from rfl, List.nodup_cons]
      exact ⟨hp ▸ h.1, h.2⟩
    · have hm : mapSet (p :: r) a v = p :: mapSet r a v := by simp [mapSet, hp]
      rw [hm, show keysM (p :: mapSet r a v) = p.1 :: keysM (mapSet r a v) from rfl,
        List.nodup_cons]
      refine ⟨?_, ih h.2⟩
      intro hmem
      rcases (mem_keysM_mapSet r a p.1 v).mp hmem with h1 | h2
      · exact h.1 h1
      · exact hp h2

theorem upsertB_nil (m : List (Nat × Item)) : upsertB m [] = m := rfl

theorem upsertB_cons (m : List (Nat × Item)) (it : Item) (l : List Item) :
    upsertB m (it :: l) = upsertB (mapSet m it.id it) l := rfl

theorem upsertB_append (m : List (Nat × Item)) (l1 l2 : List Item) :
    upsertB m (l1 ++ l2) = upsertB (upsertB m l1) l2 := by
  simp [upsertB, List.foldl_append]

theorem foldl_upsertB_flatten (batches : List (List Item)) (m : List (Nat × Item)) :
    batches.foldl upsertB m = upsertB m batches.flatten := by
  induction batches generalizing m with
  | nil => rfl
  | cons b bs ih => simp [List.foldl_cons, List.flatten_cons, upsertB_append, ih]

theorem lookupM_upsertB (m : List (Nat × Item)) (l : List Item) (k : Nat) :
    lookupM (upsertB m l) k =
      match lastWith k l with
      | some v => some v
      | none => lookupM m k := by
  induction l generalizing m with
  | nil => simp [upsertB_nil, lastWith]
  | cons it rest ih =>
    rw [upsertB_cons, ih]
    cases h : lastWith k rest with
    | some v => simp [lastWith, h]
    | none =>
      simp only [lastWith, h, lookupM_mapSet]
      by_cases h2 : it.id = k <;> simp [h2]

theorem mem_keysM_upsertB (m : List (Nat × Item)) (l : List Item) (k : Nat) :
    k ∈ keysM (upsertB m l) ↔ k ∈ keysM m ∨ k ∈ l.map (fun it => it.id) := by
  induction l generalizing m with
  | nil => simp [upsertB_nil]
  | cons it rest ih =>
    rw [upsertB_cons, ih, mem_keysM_mapSet]
    simp
    tauto

theorem nodup_keysM_upsertB (m : List (Nat × Item)) (l : List Item)
    (h : (keysM m).Nodup) : (keysM (upsertB m l)).Nodup := by
  induction l generalizing m with
  | nil => simpa [upsertB_nil]
  | cons it rest ih => exact upsertB_cons m it rest ▸ ih _ (nodup_keysM_mapSet m it.id it h)

theorem keyed_mapSet (m : List (Nat × Item)) (v : Item) (hm : Keyed m) :
    Keyed (mapSet m v.id v) := by
  induction m with
  | nil =>
    intro p hp
    simp [mapSet] at hp
    subst hp
    rfl
  | cons q r ih =>
    intro p hp
    by_cases hq : q.1 = v.id
    · have hm2 : mapSet (q :: r) v.id v = (v.id, v) :: r := by simp [mapSet, hq]
      rw [hm2] at hp
      rcases List.mem_cons.mp hp with h1 | h1
      · subst h1; rfl
      · exact hm p (by simp [h1])
    · have hm2 : mapSet (q :: r) v.id v = q :: mapSet r v.id v := by simp [mapSet, hq]
      rw [hm2] at hp
      rcases List.mem_cons.mp hp with h1 | h1
      · subst h1; exact hm p (by simp)
      · exact ih (fun q' hq' => hm q' (by simp [hq'])) p h1

theorem keyed_upsertB (m : List (Nat × Item)) (l : List Item) (hm : Keyed m) :
    Keyed (upsertB m l) := by
  induction l generalizing m with
  | nil => simpa [upsertB_nil]
  | cons it rest ih => exact upsertB_cons m it rest ▸ ih _ (keyed_mapSet m it hm)

theorem getAllM_map_id (m : List (Nat × Item)) (hm : Keyed m) :
    (getAllM m).map (fun it => it.id) = keysM m := by
  induction m with
  | nil => rfl
  | cons p r ih =>
    have hp : p.2.id = p.1 := hm p (by simp)
    have hr : Keyed r := fun q hq => hm q (by simp [hq])
    simp only [getAllM, keysM, List.map_cons, List.map_map] at ih ⊢
    rw [List.cons_eq_cons]
    exact ⟨hp, ih hr⟩

end CivitDL
namespace CivitDL

/-- Claim C7: any sequence of `upsertBatch` calls (modelled as a fold of `upsertB`
    over the batches, starting from the empty map) leaves the store with
    pairwise-distinct ids, maps every id to the last record inserted with
    that id (last-write-wins), and `getAll()` has exactly one entry per
    distinct id ever inserted. -/
theorem c7_upsert_last_write_wins (batches : List (List Item)) :
    (keysM (batches.foldl upsertB [])).Nodup ∧
    (∀ k, lookupM (batches.foldl upsertB []) k = lastWith k batches.flatten) ∧
    (getAllM (batches.foldl upsertB [])).length
      = ((batches.flatten.map (fun it => it.id)).dedup).length := by
  rw [foldl_upsertB_flatten]
  refine ⟨nodup_keysM_upsertB [] _ (by simp [keysM]), ?_, ?_⟩
  · intro k
    rw [lookupM_upsertB]
    cases lastWith k batches.flatten <;> simp [lookupM]
  · have hnd : (keysM (upsertB [] batches.flatten)).Nodup :=
      nodup_keysM_upsertB [] _ (by simp [keysM])
    have hfin : (keysM (upsertB [] batches.flatten)).toFinset
        = (batches.flatten.map (fun it => it.id)).toFinset := by
      ext k
      simp only [List.mem_toFinset]
      rw [mem_keysM_upsertB]
      simp [keysM]
    calc (getAllM (upsertB [] batches.flatten)).length
        = (keysM (upsertB [] batches.flatten)).length := by
          simp [getAllM, keysM]
      _ = (keysM (upsertB [] batches.flatten)).toFinset.card :=
          (List.toFinset_card_of_nodup hnd).symm
      _ = (batches.flatten.map (fun it => it.id)).toFinset.card := by rw [hfin]
      _ = ((batches.flatten.map (fun it => it.id)).dedup).length := List.card_toFinset _

/-- Claim C8: saving the store and re-loading it from the same backing file yields
    a store whose `getAll()` carries exactly the same set of ids, whatever
    passthrough fields the records carry. -/
theorem c8_save_load_id_roundtrip (m : List (Nat × Item)) (k : Nat) :
    k ∈ (getAllM (loadM (saveM m))).map (fun it => it.id) ↔
      k ∈ (getAllM m).map (fun it => it.id) := by
  have hkeyed : Keyed (loadM (saveM m)) :=
    keyed_upsertB [] _ (by intro p hp; cases hp)
  rw [getAllM_map_id _ hkeyed]
  unfold loadM
  rw [mem_keysM_upsertB]
  simp [keysM, saveM]

end CivitDL
namespace CivitDL

/-- Claim C1: the include expression is evaluated with JavaScript's standard
    precedence (`NOT` over `AND` over `OR`, parentheses overriding), so the
    predicate compiled from "cat OR dog AND night" agrees with the one from
    "cat OR (dog AND night)" on every prompt; it accepts a prompt with
    "cat" alone, rejects "dog" without "night", accepts "dog" with
    "night". -/
theorem c1_or_and_precedence :
    (∀ p : Option String,
      testC "cat OR dog AND night" "" p = testC "cat OR (dog AND night)" "" p) ∧
    testC "cat OR dog AND night" "" (some "a cat at day") = some true ∧
    testC "cat OR dog AND night" "" (some "a dog at day") = some false ∧
    testC "cat OR dog AND night" "" (some "a dog at night") = some true := by
  refine ⟨fun p => ?_, by decide, by decide, by decide⟩
  rfl

/-- Claim C3: if any exclusion pattern matches the prompt, the compiled predicate
    returns false no matter what the include expression says: the exclusion
    check comes before, and overrides, the inclusion expression. -/
theorem c3_exclusions_override (q ex : String) (f : Filter) (p : Option String)
    (_hc : compileF q ex = some f)
    (hx : f.exclusions.any (fun t => regexTest t false (p.getD "").data) = true) :
    f.test p = false := by
  have hne : ¬ (f.exclusions = [] ∧ f.terms = []) := by
    rintro ⟨h1, -⟩
    rw [h1] at hx
    simp at hx
  rw [Filter.test, if_neg hne, if_pos hx]

theorem c3_exclusions_override_witness :
    Filter.test ⟨["dog".data], ["cat".data], [ETok.term 0]⟩ (some "a dog with a cat") = false :=
  c3_exclusions_override "cat" "dog" ⟨["dog".data], ["cat".data], [ETok.term 0]⟩
    (some "a dog with a cat") (by decide) (by decide)

/-- Claim C4: an include term compiles to the case-insensitive word-boundary
    shape optional-digits + term + optional trailing s (so "cat" matches
    "cat", "1cat", "cats" but not "concatenate"), while an exclude term
    compiles to the same shape without the plural s (digit-tolerant but not
    plural-tolerant): the asymmetry is preserved. -/
theorem c4_term_pattern_asymmetry :
    (parseInclusionsF "cat").1 = ["cat".data] ∧
    parseExclusionsF "cat" = ["cat".data] ∧
    testC "cat" "" (some "a cat here") = some true ∧
    testC "cat" "" (some "a 1cat here") = some true ∧
    testC "cat" "" (some "cats") = some true ∧
    testC "cat" "" (some "concatenate") = some false ∧
    testC "" "cat" (some "a cat here") = some false ∧
    testC "" "cat" (some "a 1cat here") = some false ∧
    testC "" "cat" (some "cats") = some true := by
  decide

/-- Claim C9: a null/absent prompt is tested exactly like the empty string, every
    term pattern fails on the empty string, and a filter compiled from a
    blank include query with an empty exclusion list accepts every
    prompt. -/
theorem c9_null_prompt_empty_query :
    (∀ f : Filter, f.test none = f.test (some "")) ∧
    (∀ (t : List Char) (pl : Bool), regexTest t pl "".data = false) ∧
    (∀ (q ex : String) (p : Option String), trimL q.data = [] →
      parseExclusionsF ex = [] → testC q ex p = some true) := by
  refine ⟨fun f => rfl, fun t pl => rfl, fun q ex p hq hex => ?_⟩
  simp [testC, compileF, parseInclusionsF, hq, hex, Filter.test]

theorem c9_null_prompt_empty_query_witness :
    testC "" "" (some "any prompt at all") = some true :=
  c9_null_prompt_empty_query.2.2 "" "" (some "any prompt at all") (by decide) (by decide)

/-- Claim C10: operator keywords are only split out when whitespace-bounded on
    both sides, so the query "NOT 3d" (keyword first, no leading blank)
    tokenizes as one literal tag term; the predicate then holds exactly
    when the term pattern for "NOT 3d" matches the prompt — it accepts
    prompts containing the phrase "not 3d" and rejects prompts without it
    (including prompts with no "3d" at all, which a real negation would
    accept). -/
theorem c10_leading_not_is_literal :
    (parseInclusionsF "NOT 3d").1 = ["NOT 3d".data] ∧
    (parseInclusionsF "NOT 3d").2 = [ETok.term 0] ∧
    (∀ p : String,
      testC "NOT 3d" "" (some p) = some (regexTest "NOT 3d".data true p.data)) ∧
    testC "NOT 3d" "" (some "it is not 3d render") = some true ∧
    testC "NOT 3d" "" (some "a 3d render") = some false ∧
    testC "NOT 3d" "" (some "a cat") = some false := by
  refine ⟨by decide, by decide, fun p => rfl, by decide, by decide, by decide⟩

end CivitDL
namespace CivitDL

/-! ### Orchestrator lemmas -/

theorem processBatch_limit_stop (cfg : Cfg) (st : St) (items : List Item)
    (h : cfg.limit ≤ st.matchCount) : processBatch cfg st items = st := by
  cases items with
  | nil => rfl
  | cons it rest => simp [processBatch, h]

theorem runOnline_limit_stop (cfg : Cfg) (st : St) (fs : List FetchR)
    (h : cfg.limit ≤ st.matchCount) : runOnline cfg st fs = st := by
  cases fs with
  | nil => rfl
  | cons f rest => simp [runOnline, h]

theorem processBatch_counts (cfg : Cfg) (items : List Item) :
    ∀ st : St, st.downloaded + st.skipped = st.matchCount →
      (processBatch cfg st items).downloaded + (processBatch cfg st items).skipped
        = (processBatch cfg st items).matchCount := by
  induction items with
  | nil => exact fun st h => h
  | cons it rest ih =>
    intro st h
    by_cases hl : cfg.limit ≤ st.matchCount
    · simpa [processBatch, hl] using h
    · cases hft : cfg.filter.test it.prompt with
      | false =>
        simp only [processBatch, if_neg hl, hft, Bool.false_eq_true, if_false]
        exact ih _ (by simpa using h)
      | true =>
        cases hhf : st.files.contains it.id with
        | true =>
          simp only [processBatch, if_neg hl, hft, hhf, if_true]
          exact ih _ (by simp; omega)
        | false =>
          simp only [processBatch, if_neg hl, hft, hhf, Bool.false_eq_true, if_false, if_true]
          exact ih _ (by simp; omega)

theorem pageStep_counts (cfg : Cfg) (st : St) (items : List Item)
    (h : st.downloaded + st.skipped = st.matchCount) :
    (pageStep cfg st items).downloaded + (pageStep cfg st items).skipped
      = (pageStep cfg st items).matchCount := by
  have h2 := processBatch_counts cfg items
    { st with
      cache := upsertB st.cache items
      events := (st.events ++ [Ev.upsertEv items]) ++ [Ev.processEv items] } (by simpa using h)
  simpa [pageStep] using h2

theorem runOnline_counts (cfg : Cfg) (fs : List FetchR) :
    ∀ st : St, st.downloaded + st.skipped = st.matchCount →
      (runOnline cfg st fs).downloaded + (runOnline cfg st fs).skipped
        = (runOnline cfg st fs).matchCount := by
  induction fs with
  | nil => exact fun st h => h
  | cons f rest ih =>
    intro st h
    by_cases hl : cfg.limit ≤ st.matchCount
    · simpa [runOnline, hl] using h
    · cases f with
      | fail k => simpa [runOnline, hl] using h
      | ok items next =>
        by_cases he : st.scanned = 0 ∧ items = []
        · simpa [runOnline, hl, he] using h
        · have hp : (pageStep cfg { st with events := st.events ++ [Ev.fetchEv] } items).downloaded
              + (pageStep cfg { st with events := st.events ++ [Ev.fetchEv] } items).skipped
              = (pageStep cfg { st with events := st.events ++ [Ev.fetchEv] } items).matchCount :=
            pageStep_counts cfg _ items (by simpa using h)
          simp only [runOnline, if_neg hl, if_neg he]
          split
          · exact hp
          · exact ih _ hp

theorem processBatch_events (cfg : Cfg) (items : List Item) :
    ∀ st : St, ∃ l, (processBatch cfg st items).events = st.events ++ l ∧
      ∀ e ∈ l, ∃ i, e = Ev.submitEv i := by
  induction items with
  | nil => exact fun st => ⟨[], by simp [processBatch], by simp⟩
  | cons it rest ih =>
    intro st
    by_cases hl : cfg.limit ≤ st.matchCount
    · exact ⟨[], by simp [processBatch, hl], by simp⟩
    · cases hft : cfg.filter.test it.prompt with
      | false =>
        obtain ⟨l, hle, hls⟩ := ih { st with scanned := st.scanned + 1 }
        refine ⟨l, ?_, hls⟩
        simp only [processBatch, if_neg hl, hft, Bool.false_eq_true, if_false]
        exact hle
      | true =>
        cases hhf : st.files.contains it.id with
        | true =>
          obtain ⟨l, hle, hls⟩ := ih
            { st with
              scanned := st.scanned + 1
              matchCount := st.matchCount + 1
              skipped := st.skipped + 1 }
          refine ⟨l, ?_, hls⟩
          simp only [processBatch, if_neg hl, hft, hhf, if_true]
          exact hle
        | false =>
          obtain ⟨l, hle, hls⟩ := ih
            { st with
              scanned := st.scanned + 1
              matchCount := st.matchCount + 1
              downloaded := st.downloaded + 1
              events := st.events ++ [Ev.submitEv it.id] }
          refine ⟨Ev.submitEv it.id :: l, ?_, ?_⟩
          · simp only [processBatch, if_neg hl, hft, hhf, Bool.false_eq_true, if_false, if_true]
            rw [hle]
            simp
          · intro e he
            rcases List.mem_cons.mp he with h1 | h1
            · exact ⟨it.id, h1⟩
            · exact hls e h1

theorem pageStep_events (cfg : Cfg) (st : St) (items : List Item) :
    ∃ l, (pageStep cfg st items).events
        = st.events ++ [Ev.upsertEv items, Ev.processEv items] ++ l ++ [Ev.saveEv] ∧
      ∀ e ∈ l, ∃ i, e = Ev.submitEv i := by
  obtain ⟨l, hle, hls⟩ := processBatch_events cfg items
    { st with
      cache := upsertB st.cache items
      events := (st.events ++ [Ev.upsertEv items]) ++ [Ev.processEv items] }
  refine ⟨l, ?_, hls⟩
  unfold pageStep
  simp only []
  rw [hle]
  simp

theorem runOnline_events (cfg : Cfg) (fs : List FetchR) :
    ∀ st : St, ∃ l, (runOnline cfg st fs).events = st.events ++ l := by
  induction fs with
  | nil => exact fun st => ⟨[], by simp [runOnline]⟩
  | cons f rest ih =>
    intro st
    by_cases hl : cfg.limit ≤ st.matchCount
    · exact ⟨[], by simp [runOnline, hl]⟩
    · cases f with
      | fail k =>
        exact ⟨[Ev.fetchEv, Ev.errorEv k, Ev.saveEv], by simp [runOnline, hl]⟩
      | ok items next =>
        by_cases he : st.scanned = 0 ∧ items = []
        · exact ⟨[Ev.fetchEv, Ev.noImagesEv], by simp [runOnline, hl, he]⟩
        · obtain ⟨lp, hlp, -⟩ :=
            pageStep_events cfg { st with events := st.events ++ [Ev.fetchEv] } items
          simp only [runOnline, if_neg hl, if_neg he]
          split
          · exact ⟨[Ev.fetchEv] ++ [Ev.upsertEv items, Ev.processEv items] ++ lp ++ [Ev.saveEv], by
              rw [hlp]; simp⟩
          · obtain ⟨lr, hlr⟩ :=
              ih (pageStep cfg { st with events := st.events ++ [Ev.fetchEv] } items)
            exact ⟨[Ev.fetchEv] ++ [Ev.upsertEv items, Ev.processEv items] ++ lp
                ++ [Ev.saveEv] ++ lr, by rw [hlr, hlp]; simp⟩

end CivitDL
namespace CivitDL

/-- Claim C2: the match limit is a hard ceiling.  Once `matches` has reached the
    limit, `processBatch` scans no further item and submits nothing (it
    returns the state unchanged), and the online loop fetches no further
    page; and through every batch the counters satisfy
    downloaded + skipped = matches, so the equation holds at run end, each
    matched item having incremented exactly one of the two. -/
theorem c2_match_limit_ceiling :
    (∀ (cfg : Cfg) (st : St) (items : List Item), cfg.limit ≤ st.matchCount →
      processBatch cfg st items = st) ∧
    (∀ (cfg : Cfg) (st : St) (fs : List FetchR), cfg.limit ≤ st.matchCount →
      runOnline cfg st fs = st) ∧
    (∀ (cfg : Cfg) (st : St) (items : List Item),
      st.downloaded + st.skipped = st.matchCount →
      (processBatch cfg st items).downloaded + (processBatch cfg st items).skipped
        = (processBatch cfg st items).matchCount) ∧
    (∀ (cfg : Cfg) (cache : List (Nat × Item)) (files : List Nat) (fs : List FetchR),
      (runM cfg cache files fs).downloaded + (runM cfg cache files fs).skipped
        = (runM cfg cache files fs).matchCount) := by
  refine ⟨processBatch_limit_stop, runOnline_limit_stop,
    fun cfg st items h => processBatch_counts cfg items st h,
    fun cfg cache files fs => ?_⟩
  have h := runOnline_counts cfg fs (initSt cache files) rfl
  simpa [runM, finalizeRun] using h

theorem c2_match_limit_ceiling_witness :
    processBatch cfgZero stEmpty [itemCatD] = stEmpty ∧
    runOnline cfgZero stEmpty [FetchR.ok [itemCatD] true] = stEmpty ∧
    (processBatch cfgFive stEmpty [itemCatD]).downloaded
        + (processBatch cfgFive stEmpty [itemCatD]).skipped
      = (processBatch cfgFive stEmpty [itemCatD]).matchCount ∧
    (runM cfgFive [] [] [FetchR.ok [itemCatD] false]).downloaded
        + (runM cfgFive [] [] [FetchR.ok [itemCatD] false]).skipped
      = (runM cfgFive [] [] [FetchR.ok [itemCatD] false]).matchCount :=
  ⟨c2_match_limit_ceiling.1 cfgZero stEmpty [itemCatD] (by decide),
   c2_match_limit_ceiling.2.1 cfgZero stEmpty [FetchR.ok [itemCatD] true] (by decide),
   c2_match_limit_ceiling.2.2.1 cfgFive stEmpty [itemCatD] (by decide),
   c2_match_limit_ceiling.2.2.2 cfgFive [] [] [FetchR.ok [itemCatD] false]⟩

/-- Claim C5, counterexample: on a concrete non-empty page the orchestrator's event
    order is upsert, process, save — not the order upsert, save, process
    stated by the claim (`specPageOrder`). -/
theorem c5_spec_order_counterexample :
    (runOnline cfgFive stEmpty [FetchR.ok [itemDogD] false]).events
      = [Ev.fetchEv, Ev.upsertEv [itemDogD], Ev.processEv [itemDogD], Ev.saveEv] ∧
    (runOnline cfgFive stEmpty [FetchR.ok [itemDogD] false]).events
      ≠ specPageOrder [itemDogD] := by
  decide

/-- Claim C5, amended: for every fetched non-empty page that is actually
    processed, the orchestrator upserts the page into the store, then
    processes every record (submitting some downloads), and only then
    persists the store — i.e. the persist step comes after processing, not
    before it. -/
theorem c5_page_order_amended (cfg : Cfg) (st : St) (items : List Item) (next : Bool)
    (rest : List FetchR) (hl : st.matchCount < cfg.limit)
    (he : ¬ (st.scanned = 0 ∧ items = [])) :
    ∃ submits tail,
      (runOnline cfg st (FetchR.ok items next :: rest)).events
        = st.events ++ [Ev.fetchEv, Ev.upsertEv items, Ev.processEv items]
            ++ submits ++ [Ev.saveEv] ++ tail ∧
      ∀ e ∈ submits, ∃ i, e = Ev.submitEv i := by
  have hl' : ¬ cfg.limit ≤ st.matchCount := Nat.not_le.mpr hl
  obtain ⟨lp, hlp, hlps⟩ :=
    pageStep_events cfg { st with events := st.events ++ [Ev.fetchEv] } items
  simp only [runOnline, if_neg hl', if_neg he]
  split
  · exact ⟨lp, [], by rw [hlp]; simp, hlps⟩
  · obtain ⟨lr, hlr⟩ :=
      runOnline_events cfg rest (pageStep cfg { st with events := st.events ++ [Ev.fetchEv] } items)
    exact ⟨lp, lr, by rw [hlr, hlp]; simp, hlps⟩

theorem c5_page_order_amended_witness :
    ∃ submits tail,
      (runOnline cfgFive stEmpty [FetchR.ok [itemDogD] false]).events
        = stEmpty.events ++ [Ev.fetchEv, Ev.upsertEv [itemDogD], Ev.processEv [itemDogD]]
            ++ submits ++ [Ev.saveEv] ++ tail ∧
      ∀ e ∈ submits, ∃ i, e = Ev.submitEv i :=
  c5_page_order_amended cfgFive stEmpty [itemDogD] false [] (by decide) (by decide)

/-- Claim C6, counterexample: after a failed page fetch the run still reaches the
    normal finalize step — it drains, saves and prints the summary — so it
    completes normally instead of stopping in a distinct terminal failure
    state. -/
theorem c6_completes_normally_counterexample :
    (runM cfgFive [] [] [FetchR.fail ErrKind.generic]).events
      = [Ev.fetchEv, Ev.errorEv ErrKind.generic, Ev.saveEv, Ev.saveEv, Ev.summaryEv] ∧
    Ev.summaryEv ∈ (runM cfgFive [] [] [FetchR.fail ErrKind.generic]).events := by
  decide

/-- Claim C6, amended: a failed page fetch reports a classified error, saves the
    cache at the failure point, stops scanning (no further page is fetched,
    nothing of the remaining fetch results is consumed) and does not retry;
    the run then proceeds through the normal finalize path (drain, save,
    summary) rather than unwinding to a distinct terminal failure state. -/
theorem c6_fetch_failure_amended :
    (∀ (cfg : Cfg) (st : St) (k : ErrKind) (rest : List FetchR),
      st.matchCount < cfg.limit →
      runOnline cfg st (FetchR.fail k :: rest)
        = { st with events := st.events ++ [Ev.fetchEv, Ev.errorEv k, Ev.saveEv] }) ∧
    (∀ (cfg : Cfg) (cache : List (Nat × Item)) (files : List Nat) (k : ErrKind)
        (rest : List FetchR), 0 < cfg.limit →
      (runM cfg cache files (FetchR.fail k :: rest)).events
        = [Ev.fetchEv, Ev.errorEv k, Ev.saveEv, Ev.saveEv, Ev.summaryEv]) := by
  constructor
  · intro cfg st k rest h
    simp [runOnline, Nat.not_le.mpr h]
  · intro cfg cache files k rest h
    simp [runM, finalizeRun, runOnline, initSt, Nat.not_le.mpr h]

theorem c6_fetch_failure_amended_witness :
    runOnline cfgFive stEmpty [FetchR.fail ErrKind.auth]
      = { stEmpty with
          events := stEmpty.events ++ [Ev.fetchEv, Ev.errorEv ErrKind.auth, Ev.saveEv] } ∧
    (runM cfgFive [] [] [FetchR.fail ErrKind.auth]).events
      = [Ev.fetchEv, Ev.errorEv ErrKind.auth, Ev.saveEv, Ev.saveEv, Ev.summaryEv] :=
  ⟨c6_fetch_failure_amended.1 cfgFive stEmpty ErrKind.auth [] (by decide),
   c6_fetch_failure_amended.2 cfgFive [] [] ErrKind.auth [] (by decide)⟩

end CivitDL
